import Mathlib
set_option maxRecDepth 40000

/-!
Shallow embedding of the entity/component storage engine of this repository
(the `framework` namespace: `sparse_set`, `registry`, entity lifecycle, and the
`each`/`view` query engine).

Translation conventions, matching the C++ source line by line:
* `std::vector` is `List`; `resize(k, -1)` on the sparse array appends `none`
  sentinels; `size_t(-1)` sentinels in the sparse array are `none`.
* `entity` is `std::uint64_t` in the source; the claims never exercise 64-bit
  wrap-around, so entities are embedded as `Nat`.
* A thrown `std::out_of_range` (the only throwing path of the core) is an
  explicit `EcsError` value; mutators that can throw return the state they
  leave behind together with an optional error, exactly as a throwing member
  function leaves the object behind.
* Component types are identified by their `component_id` (`get_component_id<T>`
  assigns one distinct id per distinct type); every operation of the source is
  parametric in the payload type `T`, so the registry is embedded with a single
  payload type `V` and storages keyed by `component_id`.  The type-erased
  `unordered_map<component_id, unique_ptr<base_component_storage>>` becomes an
  association list from component ids to sparse sets.
* Out-of-bounds vector indexing is undefined behavior in C++; the embedding
  makes those reads total with `Option` (`nth?`) and guards the two spots in
  `erase`/`emplace` that rely on the sparse-set invariant; the invariant itself
  is `sparse_set.wf` below and holds in every reachable state.
-/

/-- One error can be signalled by the core: sparse growth past `max_capacity`
(`throw std::out_of_range` in `grow_sparse_to`). -/
inductive EcsError where
  | capacityExceeded
deriving DecidableEq

/-- `nth? l i` is `l[i]` with an explicit bounds check (C++ vector indexing,
made total). -/
def nth? {α : Type} : List α → Nat → Option α
  | [], _ => none
  | a :: _, 0 => some a
  | _ :: t, i + 1 => nth? t i

/-- Read the sparse array: `sparse_[e]`, where out-of-range reads and the
`size_t(-1)` sentinel both surface as `none`. -/
def sp_get (l : List (Option Nat)) (e : Nat) : Option Nat :=
  (nth? l e).getD none

/-- `static inline const std::size_t max_capacity = 1'000'000;`. -/
def max_capacity : Nat := 1000000

/-- `sparse_set<T>`: `sparse_` maps an entity index to a dense index (or the
absent sentinel), `dense_` is the packed list of `(index, payload)` entries,
`n` is the logical size. -/
structure sparse_set (T : Type) where
  sparse : List (Option Nat)
  dense : List (Nat × T)
  n : Nat
deriving DecidableEq

/-- The default-constructed `sparse_set` (`sparse_(1024, size_t(-1))`); also the
shared read-only sentinel named `empty` in the const `get_storage` overload. -/
def sparse_set.empty {T : Type} : sparse_set T :=
  ⟨List.replicate 1024 none, [], 0⟩

/-- `size()` returns the logical size `n`. -/
def sparse_set.size {T : Type} (s : sparse_set T) : Nat := s.n

/-- `grow_sparse_to(index)`: on `index >= sparse_.size()` resize the sparse
array to `max(size*2, index+1)` (the source's `new_size`, with `want = index+1`
inlined), throwing when that exceeds `max_capacity`. -/
def sparse_set.grow_sparse_to {T : Type} (s : sparse_set T) (index : Nat) :
    Except EcsError (sparse_set T) :=
  if s.sparse.length ≤ index then
    if max_capacity < max (s.sparse.length * 2) (index + 1) then
      Except.error EcsError.capacityExceeded
    else
      Except.ok { s with sparse :=
        s.sparse ++ List.replicate (max (s.sparse.length * 2) (index + 1) - s.sparse.length) none }
  else Except.ok s

/-- `has(index)`: in sparse bounds, sparse slot populated, dense index below
`n`, and the dense entry's recorded owner equals `index`. -/
def sparse_set.has {T : Type} (s : sparse_set T) (e : Nat) : Bool :=
  decide (e < s.sparse.length) &&
    match sp_get s.sparse e with
    | none => false
    | some d => decide (d < s.n) && ((nth? s.dense d).map Prod.fst == some e)

/-- `operator[]`: `dense_[sparse_[index]].payload`; the source documents
`has(index)` as precondition, the embedding returns `none` outside it. -/
def sparse_set.get? {T : Type} (s : sparse_set T) (e : Nat) : Option T :=
  match sp_get s.sparse e with
  | none => none
  | some d => (nth? s.dense d).map Prod.snd

/-- `dense_[d].payload = v` keeping the recorded owner (the update branch of
`emplace`); no-op out of bounds (unreachable under `has`). -/
def set_payload {T : Type} (l : List (Nat × T)) (d : Nat) (v : T) : List (Nat × T) :=
  match nth? l d with
  | some p => l.set d (p.1, v)
  | none => l

/-- `emplace(index, args...)`: grow, then either overwrite the payload in place
(present case) or write the new entry at dense position `n` (appending when the
dense vector has no spare slot, exactly as `emplace_back`/`dense_[n] = ...` do)
and record `sparse_[index] = n++`. -/
def sparse_set.emplace {T : Type} (s : sparse_set T) (e : Nat) (v : T) :
    Except EcsError (sparse_set T) :=
  match s.grow_sparse_to e with
  | Except.error err => Except.error err
  | Except.ok s1 =>
    if s1.has e then
      match sp_get s1.sparse e with
      | some d => Except.ok { s1 with dense := set_payload s1.dense d v }
      | none => Except.ok s1
    else
      Except.ok { s1 with
        dense := if s1.dense.length = s1.n then s1.dense ++ [(e, v)] else s1.dense.set s1.n (e, v),
        sparse := s1.sparse.set e (some s1.n),
        n := s1.n + 1 }

/-- `insert(index, value)` forwards to `emplace`. -/
def sparse_set.insert {T : Type} (s : sparse_set T) (e : Nat) (v : T) :
    Except EcsError (sparse_set T) :=
  s.emplace e v

/-- `erase(index)`: no-op if absent; otherwise swap-removal: move the last live
dense entry (`dense_[n-1]`) into the erased slot unless it is that slot,
retarget the moved entry's sparse pointer, mark the erased sparse slot absent,
decrement `n`.  The two `none` fallbacks guard indexing that the C++ performs
unchecked; both are unreachable when `has e` respectively `wf` holds. -/
def sparse_set.erase {T : Type} (s : sparse_set T) (e : Nat) : sparse_set T :=
  if s.has e then
    match sp_get s.sparse e with
    | none => s
    | some oldIdx =>
      if oldIdx = s.n - 1 then
        { s with sparse := s.sparse.set e none, n := s.n - 1 }
      else
        match nth? s.dense (s.n - 1) with
        | none => s
        | some last =>
          { sparse := (s.sparse.set last.1 (some oldIdx)).set e none,
            dense := s.dense.set oldIdx last,
            n := s.n - 1 }
  else s

/-- The sparse/dense coherence invariant of a sparse set: every dense position
below `n` holds an entry whose owner's sparse slot points back at it.  This is
the "Invariant: sparse[e] == i ⇒ dense[i].owner == e" of the data model; it
holds for the fresh set and is preserved by `emplace` and `erase` (proved
below), so it characterizes the reachable states. -/
def sparse_set.wf {T : Type} (s : sparse_set T) : Bool :=
  (List.range s.n).all fun d =>
    match nth? s.dense d with
    | none => false
    | some p => sp_get s.sparse p.1 == some d

/-- The owners of the live dense range, in dense order (the entities `each`
iterates). -/
def sparse_set.dense_indices {T : Type} (s : sparse_set T) : List Nat :=
  (s.dense.take s.n).map Prod.fst

/-- `registry`: the entity counter (`next_entity_`), the free list
(`free_entities_`, vector back = list head, preserving LIFO), and the storage
map keyed by component id. -/
structure registry (V : Type) where
  next_entity : Nat
  free_entities : List Nat
  component_storages : List (Nat × sparse_set V)
deriving DecidableEq

/-- Find the storage registered under `cid` (`component_storages_.find`). -/
def lookup_storage {V : Type} : List (Nat × sparse_set V) → Nat → Option (sparse_set V)
  | [], _ => none
  | p :: rest, cid => if p.1 = cid then some p.2 else lookup_storage rest cid

/-- Store `s` under `cid`, overwriting an existing entry or appending a new
one (writing back through the reference `get_storage` returned). -/
def set_storage {V : Type} : List (Nat × sparse_set V) → Nat → sparse_set V →
    List (Nat × sparse_set V)
  | [], cid, s => [(cid, s)]
  | p :: rest, cid, s => if p.1 = cid then (p.1, s) :: rest else p :: set_storage rest cid s

/-- Mutable `get_storage<T>()`: returns T's storage, creating and registering a
fresh one on first use; the second component is the registry afterwards. -/
def registry.get_storage {V : Type} (r : registry V) (cid : Nat) :
    sparse_set V × registry V :=
  match lookup_storage r.component_storages cid with
  | some s => (s, r)
  | none => (sparse_set.empty,
      { r with component_storages := r.component_storages ++ [(cid, sparse_set.empty)] })

/-- Just the registration side effect of `get_storage`. -/
def registry.touch {V : Type} (r : registry V) (cid : Nat) : registry V :=
  (r.get_storage cid).2

/-- `new_entity()`: pop the free list (LIFO) if non-empty, else `++next_entity_`. -/
def registry.new_entity {V : Type} (r : registry V) : Nat × registry V :=
  match r.free_entities with
  | e :: rest => (e, { r with free_entities := rest })
  | [] => (r.next_entity + 1, { r with next_entity := r.next_entity + 1 })

/-- `remove_entity(e)`: erase `e` from every registered storage, then push `e`
onto the free list (unconditionally, as in the source). -/
def registry.remove_entity {V : Type} (r : registry V) (e : Nat) : registry V :=
  { r with component_storages := r.component_storages.map fun p => (p.1, p.2.erase e),
           free_entities := e :: r.free_entities }

/-- `has_component<T>(e)`: const path, `find` without registering. -/
def registry.has_component {V : Type} (r : registry V) (cid e : Nat) : Bool :=
  match lookup_storage r.component_storages cid with
  | none => false
  | some s => s.has e

/-- `get_component<T>(e)` (non-const): reads through the mutable `get_storage`,
so it carries the same registration side effect. -/
def registry.get_component {V : Type} (r : registry V) (cid e : Nat) :
    Option V × registry V :=
  ((r.get_storage cid).1.get? e, (r.get_storage cid).2)

/-- `try_get_component<T>(e)`: const `find`, `nullptr` when absent. -/
def registry.try_get_component {V : Type} (r : registry V) (cid e : Nat) : Option V :=
  match lookup_storage r.component_storages cid with
  | none => none
  | some s => if s.has e then s.get? e else none

/-- `add_component<T>(e, args...)`: `get_storage<T>().emplace(e, args...)`.
Returns the registry left behind together with the error, if any, that
`emplace` threw (a throw happens after `get_storage` already registered). -/
def registry.add_component {V : Type} (r : registry V) (cid e : Nat) (v : V) :
    registry V × Option EcsError :=
  match (r.get_storage cid).1.emplace e v with
  | Except.ok s2 =>
      ({ (r.get_storage cid).2 with
          component_storages := set_storage (r.get_storage cid).2.component_storages cid s2 },
       none)
  | Except.error err => ((r.get_storage cid).2, some err)

/-- `remove_component<T>(e)`: `get_storage<T>().erase(e)`. -/
def registry.remove_component {V : Type} (r : registry V) (cid e : Nat) : registry V :=
  { (r.get_storage cid).2 with
      component_storages :=
        set_storage (r.get_storage cid).2.component_storages cid ((r.get_storage cid).1.erase e) }

/-- `has_all<Ts...>(e)`: short-circuiting conjunction of `has_component`. -/
def registry.has_all {V : Type} (r : registry V) (cids : List Nat) (e : Nat) : Bool :=
  cids.all fun cid => r.has_component cid e

/-- `each<T>(f)`: visit every live dense entry of T's storage (registering it
first); the visit sequence is the live dense range in dense order. -/
def registry.each {V : Type} (r : registry V) (cid : Nat) :
    List (Nat × V) × registry V :=
  ((r.get_storage cid).1.dense.take (r.get_storage cid).1.n, (r.get_storage cid).2)

/-- `smallest->size()` for a storage already registered under `cid` (0 for an
unregistered one, matching the fresh storage `get_storage` would create). -/
def registry.storage_size {V : Type} (r : registry V) (cid : Nat) : Nat :=
  match lookup_storage r.component_storages cid with
  | some s => s.size
  | none => 0

/-- One step of the driver-selection fold of `view`:
`get_storage<Ts>().size() < smallest->size() ? smallest = &get_storage<Ts>() : smallest`.
The accumulator is the current smallest's component id plus the registry (the
pointed-to storage is `acc.1`'s entry of the current registry). -/
def registry.view_step {V : Type} (acc : Nat × registry V) (cid : Nat) :
    Nat × registry V :=
  if (acc.2.get_storage cid).1.size < (acc.2.get_storage cid).2.storage_size acc.1 then
    (cid, (acc.2.get_storage cid).2)
  else
    (acc.1, (acc.2.get_storage cid).2)

/-- The driver selection of `view<T1..Tn>`: start from `first_t`'s storage and
fold the comparison over the whole type list, left to right. -/
def registry.view_select {V : Type} (r : registry V) (first : Nat) (rest : List Nat) :
    Nat × registry V :=
  (first :: rest).foldl registry.view_step (first, (r.get_storage first).2)

/-- The storage the chosen driver pointer refers to. -/
def registry.driver_storage {V : Type} (r : registry V) (driver : Nat) : sparse_set V :=
  match lookup_storage r.component_storages driver with
  | some s => s
  | none => sparse_set.empty

/-- The body of `view`'s loop: for every item in the driver's live dense range,
test `has_all` over the full type list and, on success, visit `item.index`.
The result is the sequence of visited entities in driver-dense order. -/
def registry.view_visits {V : Type} (r : registry V) (driver : Nat) (cids : List Nat) :
    List Nat :=
  (((r.driver_storage driver).dense.take (r.driver_storage driver).n).filter
     fun p => r.has_all cids p.1).map Prod.fst

/-- `view<T1..Tn>(f)`: select the driver, then run the filtered iteration.
Returns the visited entities and the registry afterwards. -/
def registry.view {V : Type} (r : registry V) (first : Nat) (rest : List Nat) :
    List Nat × registry V :=
  (registry.view_visits (r.view_select first rest).2 (r.view_select first rest).1 (first :: rest),
   (r.view_select first rest).2)

/-- All registered storages satisfy the sparse-set invariant. -/
def registry.wf_all {V : Type} (r : registry V) : Bool :=
  r.component_storages.all fun p => p.2.wf

/-- The pure mirror of the driver-selection fold, over a fixed size function;
`view_select` is proved equal to it below. -/
def select_smallest (sz : Nat → Nat) (b : Nat) (l : List Nat) : Nat :=
  l.foldl (fun best c => if sz c < sz best then c else best) b

/-- A freshly constructed registry. -/
def fresh_registry : registry Nat := ⟨0, [], []⟩

/-- Concrete scenario 1 of the spec: entities 1, 2, 3; component id 1
("Position") on 1 and 2; component id 2 ("Velocity") on 2 and 3. -/
def demo_registry : registry Nat :=
  ((((((((fresh_registry.new_entity).2.new_entity).2.new_entity).2.add_component 1 1 10).1
      ).add_component 1 2 20).1.add_component 2 2 30).1.add_component 2 3 40).1

/-- The sparse set reached from the fresh one by `emplace 600000`: the sparse
array was resized exactly to fit (600001 slots), one live entry. -/
def s600 : sparse_set Nat :=
  ⟨(List.replicate 1024 (none : Option Nat) ++ List.replicate 598977 none).set 600000 (some 0),
   [(600000, 0)], 1⟩

/-! ### List indexing lemmas -/

theorem nth?_eq_none {α : Type} {l : List α} {i : Nat} (h : l.length ≤ i) :
    nth? l i = none := by
  induction l generalizing i with
  | nil => rfl
  | cons a t ih =>
    cases i with
    | zero => simp at h
    | succ j => exact ih (by simpa using h)

theorem nth?_lt_length {α : Type} {l : List α} {i : Nat} {x : α}
    (h : nth? l i = some x) : i < l.length := by
  by_contra hc
  rw [nth?_eq_none (Nat.le_of_not_lt hc)] at h
  exact Option.noConfusion h

theorem nth?_set_self {α : Type} {l : List α} {i : Nat} (a : α) (h : i < l.length) :
    nth? (l.set i a) i = some a := by
  induction l generalizing i with
  | nil => simp at h
  | cons b t ih =>
    cases i with
    | zero => rfl
    | succ j => exact ih (by simpa using h)

theorem nth?_set_ne {α : Type} {l : List α} {i j : Nat} (a : α) (h : i ≠ j) :
    nth? (l.set i a) j = nth? l j := by
  induction l generalizing i j with
  | nil => rfl
  | cons b t ih =>
    cases i with
    | zero =>
      cases j with
      | zero => exact absurd rfl h
      | succ k => rfl
    | succ i' =>
      cases j with
      | zero => rfl
      | succ k => exact ih fun he => h (by rw [he])

theorem nth?_append_left {α : Type} {l l' : List α} {i : Nat} (h : i < l.length) :
    nth? (l ++ l') i = nth? l i := by
  induction l generalizing i with
  | nil => simp at h
  | cons b t ih =>
    cases i with
    | zero => rfl
    | succ j => exact ih (by simpa using h)

theorem nth?_append_right {α : Type} (l l' : List α) (i : Nat) :
    nth? (l ++ l') (l.length + i) = nth? l' i := by
  induction l with
  | nil => simp [List.length_nil]
  | cons b t ih => simpa [Nat.succ_add] using ih

theorem nth?_replicate {α : Type} (a : α) (k i : Nat) :
    nth? (List.replicate k a) i = if i < k then some a else none := by
  induction k generalizing i with
  | zero => cases i <;> rfl
  | succ m ih =>
    cases i with
    | zero => simp [List.replicate, nth?]
    | succ j => simpa [List.replicate, nth?, Nat.succ_lt_succ_iff] using ih j

theorem mem_of_nth? {α : Type} {l : List α} {i : Nat} {x : α}
    (h : nth? l i = some x) : x ∈ l := by
  induction l generalizing i with
  | nil => exact Option.noConfusion h
  | cons b t ih =>
    cases i with
    | zero => cases h; exact List.mem_cons_self _ _
    | succ j => exact List.mem_cons_of_mem _ (ih h)

theorem nth?_of_mem {α : Type} {l : List α} {x : α} (h : x ∈ l) :
    ∃ i, nth? l i = some x := by
  induction l with
  | nil => cases h
  | cons b t ih =>
    rcases List.mem_cons.mp h with h1 | h2
    · exact ⟨0, by rw [h1]; rfl⟩
    · obtain ⟨i, hi⟩ := ih h2
      exact ⟨i + 1, hi⟩

theorem nth?_take {α : Type} {l : List α} {i k : Nat} (h : i < k) :
    nth? (l.take k) i = nth? l i := by
  induction l generalizing i k with
  | nil => simp
  | cons b t ih =>
    cases k with
    | zero => simp at h
    | succ m =>
      cases i with
      | zero => rfl
      | succ j => simpa using ih (Nat.lt_of_succ_lt_succ h)

theorem nth?_take_some {α : Type} {l : List α} {i k : Nat} {x : α}
    (h : nth? (l.take k) i = some x) : i < k ∧ nth? l i = some x := by
  have hlt : i < k := by
    have h1 := nth?_lt_length h
    have h2 : (l.take k).length ≤ k := by simp
    omega
  exact ⟨hlt, by rw [← nth?_take hlt, h]⟩

theorem nth?_map {α β : Type} (f : α → β) (l : List α) (i : Nat) :
    nth? (l.map f) i = (nth? l i).map f := by
  induction l generalizing i with
  | nil => rfl
  | cons b t ih => cases i with
    | zero => rfl
    | succ j => exact ih j

theorem nodup_of_nth?_inj {α : Type} {l : List α}
    (h : ∀ i j x, nth? l i = some x → nth? l j = some x → i = j) : l.Nodup := by
  induction l with
  | nil => exact List.nodup_nil
  | cons a t ih =>
    refine List.nodup_cons.mpr ⟨?_, ih ?_⟩
    · intro hmem
      obtain ⟨j, hj⟩ := nth?_of_mem hmem
      exact Nat.noConfusion (h 0 (j + 1) a rfl hj)
    · intro i j x hi hj
      exact Nat.succ_injective (h (i + 1) (j + 1) x hi hj)

/-! ### Sparse-array read lemmas -/

theorem sp_get_eq_none {l : List (Option Nat)} {e : Nat} (h : l.length ≤ e) :
    sp_get l e = none := by
  unfold sp_get
  rw [nth?_eq_none h]
  rfl

theorem sp_get_lt_length {l : List (Option Nat)} {e d : Nat}
    (h : sp_get l e = some d) : e < l.length := by
  by_contra hc
  rw [sp_get_eq_none (Nat.le_of_not_lt hc)] at h
  exact Option.noConfusion h

theorem sp_get_set_self {l : List (Option Nat)} {e : Nat} (a : Option Nat)
    (h : e < l.length) : sp_get (l.set e a) e = a := by
  unfold sp_get
  rw [nth?_set_self a h]
  rfl

theorem sp_get_set_ne {l : List (Option Nat)} {i j : Nat} (a : Option Nat)
    (h : i ≠ j) : sp_get (l.set i a) j = sp_get l j := by
  unfold sp_get
  rw [nth?_set_ne a h]

theorem sp_get_replicate_none (k e : Nat) :
    sp_get (List.replicate k (none : Option Nat)) e = none := by
  unfold sp_get
  rw [nth?_replicate]
  split <;> rfl

theorem sp_get_append_replicate_none (l : List (Option Nat)) (k e : Nat) :
    sp_get (l ++ List.replicate k none) e = sp_get l e := by
  rcases Nat.lt_or_ge e l.length with h | h
  · unfold sp_get
    rw [nth?_append_left h]
  · rw [sp_get_eq_none h]
    rcases Nat.lt_or_ge e (l.length + k) with h2 | h2
    · have he : e = l.length + (e - l.length) := by omega
      unfold sp_get
      rw [he, nth?_append_right, nth?_replicate]
      split <;> rfl
    · exact sp_get_eq_none (by simp; omega)

/-! ### sparse_set lemmas -/

theorem sparse_set.has_iff {T : Type} {s : sparse_set T} {e : Nat} :
    s.has e = true ↔
      e < s.sparse.length ∧
        ∃ d p, sp_get s.sparse e = some d ∧ d < s.n ∧ nth? s.dense d = some p ∧ p.1 = e := by
  unfold sparse_set.has
  cases hsp : sp_get s.sparse e with
  | none =>
    constructor
    · intro h
      simp at h
    · rintro ⟨-, d, p, hd, -⟩
      exact Option.noConfusion hd
  | some d =>
    cases hd : nth? s.dense d with
    | none =>
      constructor
      · intro h
        simp [hd] at h
      · rintro ⟨-, d2, p, hd2, -, hp, -⟩
        cases hd2
        rw [hd] at hp
        exact Option.noConfusion hp
    | some p =>
      constructor
      · intro h
        simp only [hd, Bool.and_eq_true, decide_eq_true_eq, beq_iff_eq,
          Option.map_some', Option.some.injEq] at h
        exact ⟨h.1, d, p, rfl, h.2.1, hd, h.2.2⟩
      · rintro ⟨h1, d2, p2, hd2, hlt, hp2, hfst⟩
        cases hd2
        rw [hd] at hp2
        cases hp2
        simp [h1, hlt, hd, hfst]

theorem sparse_set.has_false_iff {T : Type} {s : sparse_set T} {e : Nat} :
    s.has e = false ↔ ¬ s.has e = true := by
  cases h : s.has e <;> simp

theorem sparse_set.grow_ok {T : Type} {s s1 : sparse_set T} {e : Nat}
    (h : s.grow_sparse_to e = Except.ok s1) :
    s1.dense = s.dense ∧ s1.n = s.n ∧ e < s1.sparse.length ∧
      s.sparse.length ≤ s1.sparse.length ∧ ∀ j, sp_get s1.sparse j = sp_get s.sparse j := by
  unfold sparse_set.grow_sparse_to at h
  by_cases h1 : s.sparse.length ≤ e
  · rw [if_pos h1] at h
    by_cases h2 : max_capacity < max (s.sparse.length * 2) (e + 1)
    · rw [if_pos h2] at h
      exact Except.noConfusion h
    · rw [if_neg h2] at h
      cases h
      refine ⟨rfl, rfl, ?_, ?_, ?_⟩
      · have hm := Nat.le_max_right (s.sparse.length * 2) (e + 1)
        simp only [List.length_append, List.length_replicate]
        omega
      · simp [List.length_append, List.length_replicate]
      · intro j
        exact sp_get_append_replicate_none _ _ _
  · rw [if_neg h1] at h
    cases h
    exact ⟨rfl, rfl, by omega, Nat.le_refl _, fun j => rfl⟩

theorem sparse_set.emplace_error_of {T : Type} {s : sparse_set T} {e : Nat} (v : T)
    (h1 : s.sparse.length ≤ e)
    (h2 : max_capacity < max (s.sparse.length * 2) (e + 1)) :
    s.emplace e v = Except.error EcsError.capacityExceeded := by
  have hg : s.grow_sparse_to e = Except.error EcsError.capacityExceeded := by
    unfold sparse_set.grow_sparse_to
    rw [if_pos h1, if_pos h2]
  unfold sparse_set.emplace
  rw [hg]

theorem sparse_set.emplace_ok_of {T : Type} {s : sparse_set T} {e : Nat} (v : T)
    (h : ¬ (s.sparse.length ≤ e ∧ max_capacity < max (s.sparse.length * 2) (e + 1))) :
    ∃ s2, s.emplace e v = Except.ok s2 := by
  have hg : ∃ s1, s.grow_sparse_to e = Except.ok s1 := by
    unfold sparse_set.grow_sparse_to
    by_cases h1 : s.sparse.length ≤ e
    · rw [if_pos h1]
      by_cases h2 : max_capacity < max (s.sparse.length * 2) (e + 1)
      · exact absurd ⟨h1, h2⟩ h
      · rw [if_neg h2]
        exact ⟨_, rfl⟩
    · rw [if_neg h1]
      exact ⟨_, rfl⟩
  obtain ⟨s1, hg⟩ := hg
  unfold sparse_set.emplace
  simp only [hg]
  by_cases hh : s1.has e
  · rw [if_pos hh]
    cases hsp : sp_get s1.sparse e
    · exact ⟨_, rfl⟩
    · exact ⟨_, rfl⟩
  · rw [if_neg hh]
    exact ⟨_, rfl⟩

theorem sparse_set.wf_spec {T : Type} {s : sparse_set T} (h : s.wf = true) :
    ∀ d, d < s.n → ∃ p, nth? s.dense d = some p ∧ sp_get s.sparse p.1 = some d := by
  intro d hd
  unfold sparse_set.wf at h
  rw [List.all_eq_true] at h
  have hx := h d (List.mem_range.mpr hd)
  cases hnth : nth? s.dense d with
  | none =>
    rw [hnth] at hx
    exact Bool.noConfusion hx
  | some p =>
    rw [hnth] at hx
    exact ⟨p, rfl, by simpa using hx⟩

theorem sparse_set.wf_n_le {T : Type} {s : sparse_set T} (h : s.wf = true) :
    s.n ≤ s.dense.length := by
  cases hn : s.n with
  | zero => omega
  | succ m =>
    obtain ⟨p, hp, -⟩ := sparse_set.wf_spec h m (by omega)
    have := nth?_lt_length hp
    omega

theorem sparse_set.wf_nodup {T : Type} {s : sparse_set T} (h : s.wf = true) :
    s.dense_indices.Nodup := by
  apply nodup_of_nth?_inj
  intro i j x hi hj
  unfold sparse_set.dense_indices at hi hj
  rw [nth?_map] at hi hj
  cases hti : nth? (s.dense.take s.n) i with
  | none => rw [hti] at hi; exact Option.noConfusion hi
  | some p =>
    cases htj : nth? (s.dense.take s.n) j with
    | none => rw [htj] at hj; exact Option.noConfusion hj
    | some q =>
      rw [hti] at hi
      rw [htj] at hj
      have hpx : p.1 = x := by simpa using hi
      have hqx : q.1 = x := by simpa using hj
      obtain ⟨hin, hpi⟩ := nth?_take_some hti
      obtain ⟨hjn, hqj⟩ := nth?_take_some htj
      obtain ⟨p2, hp2, hsp2⟩ := sparse_set.wf_spec h i hin
      obtain ⟨q2, hq2, hsq2⟩ := sparse_set.wf_spec h j hjn
      rw [hpi] at hp2
      cases hp2
      rw [hqj] at hq2
      cases hq2
      rw [hpx] at hsp2
      rw [hqx] at hsq2
      rw [hsp2] at hsq2
      exact Option.some.inj hsq2

theorem sparse_set.empty_wf {T : Type} : (sparse_set.empty : sparse_set T).wf = true := rfl

theorem sparse_set.empty_has {T : Type} (e : Nat) :
    (sparse_set.empty : sparse_set T).has e = false := by
  have h : sp_get (sparse_set.empty : sparse_set T).sparse e = none :=
    sp_get_replicate_none 1024 e
  unfold sparse_set.has
  rw [h]
  exact Bool.and_false _

theorem sparse_set.emplace_ok_get {T : Type} {s s2 : sparse_set T} {e : Nat} {v : T}
    (hn : s.n ≤ s.dense.length) (h : s.emplace e v = Except.ok s2) :
    s2.get? e = some v := by
  unfold sparse_set.emplace at h
  cases hg : s.grow_sparse_to e with
  | error err =>
    rw [hg] at h
    exact Except.noConfusion h
  | ok s1 =>
    obtain ⟨hdense, hnn, helt, hle, hsp⟩ := sparse_set.grow_ok hg
    simp only [hg] at h
    by_cases hh : s1.has e
    · rw [if_pos hh] at h
      obtain ⟨h1, d, p, hspe, hdn, hnth, hfst⟩ := sparse_set.has_iff.mp hh
      simp only [hspe] at h
      cases h
      unfold sparse_set.get? set_payload
      simp only [hspe, hnth]
      rw [nth?_set_self _ (nth?_lt_length hnth)]
      rfl
    · rw [if_neg hh] at h
      cases h
      unfold sparse_set.get?
      simp only [sp_get_set_self (some s1.n) helt]
      by_cases hfit : s1.dense.length = s1.n
      · rw [if_pos hfit]
        have hr := nth?_append_right s1.dense [(e, v)] 0
        rw [Nat.add_zero] at hr
        rw [← hfit, hr]
        rfl
      · rw [if_neg hfit]
        have hlt : s1.n < s1.dense.length := by
          rw [hdense, hnn]
          rw [hdense] at hfit
          rw [hnn] at hfit
          omega
        rw [nth?_set_self _ hlt]
        rfl

theorem sparse_set.erase_not_has {T : Type} {s : sparse_set T} {e : Nat}
    (h : s.has e = false) : s.erase e = s := by
  unfold sparse_set.erase
  rw [if_neg (by simp [h])]

theorem sparse_set.erase_has_self {T : Type} {s : sparse_set T} {e : Nat}
    (hw : s.wf = true) : (s.erase e).has e = false := by
  cases hh : s.has e with
  | false => rw [sparse_set.erase_not_has hh]; exact hh
  | true =>
    obtain ⟨hlen, d, p, hspe, hdn, hnth, hfst⟩ := sparse_set.has_iff.mp hh
    unfold sparse_set.erase
    rw [if_pos hh]
    simp only [hspe]
    by_cases hd1 : d = s.n - 1
    · rw [if_pos hd1]
      unfold sparse_set.has
      rw [show sp_get (s.sparse.set e none) e = none from sp_get_set_self none hlen]
      exact Bool.and_false _
    · rw [if_neg hd1]
      obtain ⟨last, hlast, -⟩ := sparse_set.wf_spec hw (s.n - 1) (by omega)
      simp only [hlast]
      unfold sparse_set.has
      rw [show sp_get ((s.sparse.set last.1 (some d)).set e none) e = none from
        sp_get_set_self none (by simpa using hlen)]
      exact Bool.and_false _

theorem sparse_set.erase_cases {T : Type} (s : sparse_set T) (e : Nat) :
    s.erase e = s ∨ (s.erase e).has e = false := by
  cases hh : s.has e with
  | false => exact Or.inl (sparse_set.erase_not_has hh)
  | true =>
    obtain ⟨hlen, d, p, hspe, hdn, hnth, hfst⟩ := sparse_set.has_iff.mp hh
    unfold sparse_set.erase
    rw [if_pos hh]
    simp only [hspe]
    by_cases hd1 : d = s.n - 1
    · rw [if_pos hd1]
      right
      unfold sparse_set.has
      rw [show sp_get (s.sparse.set e none) e = none from sp_get_set_self none hlen]
      exact Bool.and_false _
    · rw [if_neg hd1]
      cases hlast : nth? s.dense (s.n - 1) with
      | none => exact Or.inl rfl
      | some last =>
        right
        unfold sparse_set.has
        rw [show sp_get ((s.sparse.set last.1 (some d)).set e none) e = none from
          sp_get_set_self none (by simpa using hlen)]
        exact Bool.and_false _

/-! ### registry storage-map lemmas -/

theorem lookup_set_storage_self {V : Type} (l : List (Nat × sparse_set V)) (cid : Nat)
    (s : sparse_set V) : lookup_storage (set_storage l cid s) cid = some s := by
  induction l with
  | nil => simp [set_storage, lookup_storage]
  | cons p rest ih =>
    unfold set_storage
    by_cases hp : p.1 = cid
    · rw [if_pos hp]
      unfold lookup_storage
      rw [if_pos hp]
    · rw [if_neg hp]
      unfold lookup_storage
      rw [if_neg hp]
      exact ih

theorem lookup_set_storage_ne {V : Type} (l : List (Nat × sparse_set V)) {cid c : Nat}
    (s : sparse_set V) (h : c ≠ cid) :
    lookup_storage (set_storage l cid s) c = lookup_storage l c := by
  induction l with
  | nil =>
    unfold set_storage lookup_storage
    rw [if_neg (show ¬cid = c from fun he => h he.symm)]
    rfl
  | cons p rest ih =>
    unfold set_storage
    by_cases hp : p.1 = cid
    · rw [if_pos hp]
      unfold lookup_storage
      rw [if_neg (show ¬p.1 = c from fun he => h (he.symm.trans hp)),
        if_neg (show ¬p.1 = c from fun he => h (he.symm.trans hp))]
    · rw [if_neg hp]
      unfold lookup_storage
      by_cases hc : p.1 = c
      · rw [if_pos hc, if_pos hc]
      · rw [if_neg hc, if_neg hc]
        exact ih

theorem lookup_map_erase {V : Type} (l : List (Nat × sparse_set V)) (e cid : Nat) :
    lookup_storage (l.map fun p => (p.1, p.2.erase e)) cid =
      (lookup_storage l cid).map fun s => s.erase e := by
  induction l with
  | nil => rfl
  | cons p rest ih =>
    unfold lookup_storage
    by_cases hp : p.1 = cid
    · simp only [List.map_cons]
      rw [if_pos hp, if_pos hp]
      rfl
    · simp only [List.map_cons]
      rw [if_neg hp, if_neg hp]
      exact ih

theorem lookup_append_single {V : Type} (l : List (Nat × sparse_set V)) (cid c : Nat)
    (s : sparse_set V) :
    lookup_storage (l ++ [(cid, s)]) c =
      match lookup_storage l c with
      | some t => some t
      | none => if cid = c then some s else none := by
  induction l with
  | nil =>
    simp only [List.nil_append]
    unfold lookup_storage
    rfl
  | cons p rest ih =>
    simp only [List.cons_append]
    unfold lookup_storage
    by_cases hp : p.1 = c
    · rw [if_pos hp, if_pos hp]
    · rw [if_neg hp, if_neg hp]
      exact ih

theorem lookup_storage_mem {V : Type} {l : List (Nat × sparse_set V)} {cid : Nat}
    {s : sparse_set V} (h : lookup_storage l cid = some s) : (cid, s) ∈ l := by
  induction l with
  | nil => exact Option.noConfusion h
  | cons p rest ih =>
    unfold lookup_storage at h
    by_cases hp : p.1 = cid
    · rw [if_pos hp] at h
      cases h
      have hps : (cid, p.2) = p := by
        rw [← hp]
      rw [hps]
      exact List.mem_cons_self _ _
    · rw [if_neg hp] at h
      exact List.mem_cons_of_mem _ (ih h)

theorem wf_all_lookup {V : Type} {r : registry V} {cid : Nat} {s : sparse_set V}
    (hw : r.wf_all = true) (h : lookup_storage r.component_storages cid = some s) :
    s.wf = true := by
  unfold registry.wf_all at hw
  rw [List.all_eq_true] at hw
  exact hw (cid, s) (lookup_storage_mem h)

/-! ### touch / get_storage lemmas -/

theorem touch_lookup {V : Type} (r : registry V) (cid c : Nat) :
    lookup_storage (r.touch cid).component_storages c =
      match lookup_storage r.component_storages c with
      | some t => some t
      | none => if cid = c then some sparse_set.empty else none := by
  unfold registry.touch registry.get_storage
  cases h : lookup_storage r.component_storages cid with
  | some s =>
    cases h2 : lookup_storage r.component_storages c with
    | some t => rfl
    | none =>
      by_cases hc : cid = c
      · rw [hc] at h
        rw [h] at h2
        exact Option.noConfusion h2
      · rw [if_neg hc]
  | none =>
    rw [lookup_append_single]

theorem touch_storage_size {V : Type} (r : registry V) (cid c : Nat) :
    (r.touch cid).storage_size c = r.storage_size c := by
  unfold registry.storage_size
  rw [touch_lookup]
  cases h : lookup_storage r.component_storages c with
  | some t => rfl
  | none =>
    by_cases hc : cid = c
    · rw [if_pos hc]
      rfl
    · rw [if_neg hc]

theorem touch_has_component {V : Type} (r : registry V) (cid c e : Nat) :
    (r.touch cid).has_component c e = r.has_component c e := by
  unfold registry.has_component
  rw [touch_lookup]
  cases h : lookup_storage r.component_storages c with
  | some t => rfl
  | none =>
    by_cases hc : cid = c
    · rw [if_pos hc]
      exact sparse_set.empty_has e
    · rw [if_neg hc]

theorem touch_next_free {V : Type} (r : registry V) (cid : Nat) :
    (r.touch cid).next_entity = r.next_entity ∧
      (r.touch cid).free_entities = r.free_entities := by
  unfold registry.touch registry.get_storage
  cases h : lookup_storage r.component_storages cid <;> exact ⟨rfl, rfl⟩

theorem touch_wf_all {V : Type} {r : registry V} (cid : Nat) (hw : r.wf_all = true) :
    (r.touch cid).wf_all = true := by
  unfold registry.touch registry.get_storage
  cases h : lookup_storage r.component_storages cid with
  | some s => exact hw
  | none =>
    unfold registry.wf_all at hw ⊢
    rw [List.all_append]
    rw [hw]
    simp [sparse_set.empty_wf]

theorem get_storage_fst_size {V : Type} (r : registry V) (cid : Nat) :
    (r.get_storage cid).1.size = r.storage_size cid := by
  unfold registry.get_storage registry.storage_size
  cases h : lookup_storage r.component_storages cid <;> rfl

theorem get_storage_fst_wf {V : Type} {r : registry V} (cid : Nat) (hw : r.wf_all = true) :
    (r.get_storage cid).1.wf = true := by
  unfold registry.get_storage
  cases h : lookup_storage r.component_storages cid with
  | some s => exact wf_all_lookup hw h
  | none => exact sparse_set.empty_wf

theorem foldl_touch_lookup {V : Type} (l : List Nat) (r : registry V) (c : Nat) :
    lookup_storage (l.foldl registry.touch r).component_storages c =
      match lookup_storage r.component_storages c with
      | some t => some t
      | none => if c ∈ l then some sparse_set.empty else none := by
  induction l generalizing r with
  | nil =>
    rw [List.foldl_nil]
    cases h : lookup_storage r.component_storages c with
    | some t => rfl
    | none => simp
  | cons d t ih =>
    rw [List.foldl_cons, ih, touch_lookup]
    cases h : lookup_storage r.component_storages c with
    | some u => rfl
    | none =>
      by_cases hd : d = c
      · rw [if_pos hd, if_pos (show c ∈ d :: t from by rw [hd]; exact List.mem_cons_self _ _)]
      · rw [if_neg hd]
        by_cases hct : c ∈ t
        · rw [if_pos hct, if_pos (List.mem_cons_of_mem _ hct)]
        · rw [if_neg hct,
            if_neg (show ¬c ∈ d :: t from
              fun hmem => (List.mem_cons.mp hmem).elim (fun he => hd he.symm) hct)]

theorem foldl_touch_has_component {V : Type} (l : List Nat) (r : registry V) (c e : Nat) :
    (l.foldl registry.touch r).has_component c e = r.has_component c e := by
  induction l generalizing r with
  | nil => rfl
  | cons d t ih => rw [List.foldl_cons, ih, touch_has_component]

theorem foldl_touch_wf_all {V : Type} (l : List Nat) {r : registry V} (hw : r.wf_all = true) :
    (l.foldl registry.touch r).wf_all = true := by
  induction l generalizing r with
  | nil => exact hw
  | cons d t ih =>
    rw [List.foldl_cons]
    exact ih (touch_wf_all d hw)

/-! ### view staging lemmas -/

theorem view_step_snd {V : Type} (acc : Nat × registry V) (cid : Nat) :
    (registry.view_step acc cid).2 = acc.2.touch cid := by
  unfold registry.view_step registry.touch
  split <;> rfl

theorem view_select_snd {V : Type} (r : registry V) (first : Nat) (rest : List Nat) :
    (r.view_select first rest).2 = (first :: rest).foldl registry.touch (r.touch first) := by
  unfold registry.view_select
  have aux : ∀ (l : List Nat) (acc : Nat × registry V),
      (l.foldl registry.view_step acc).2 = l.foldl registry.touch acc.2 := by
    intro l
    induction l with
    | nil => intro acc; rfl
    | cons c t ih =>
      intro acc
      rw [List.foldl_cons, List.foldl_cons, ih, view_step_snd]
  exact aux _ _

theorem view_select_fst {V : Type} (r : registry V) (first : Nat) (rest : List Nat) :
    (r.view_select first rest).1 = select_smallest r.storage_size first (first :: rest) := by
  unfold registry.view_select select_smallest
  have aux : ∀ (l : List Nat) (b : Nat) (r0 : registry V),
      (∀ c, r0.storage_size c = r.storage_size c) →
      (l.foldl registry.view_step (b, r0)).1 =
        l.foldl (fun best c => if r.storage_size c < r.storage_size best then c else best) b := by
    intro l
    induction l with
    | nil =>
      intro b r0 hag
      rfl
    | cons c t ih =>
      intro b r0 hag
      rw [List.foldl_cons, List.foldl_cons]
      have h1 : (registry.get_storage r0 c).1.size = r.storage_size c := by
        rw [get_storage_fst_size]
        exact hag c
      have h2 : ((registry.get_storage r0 c).2).storage_size b = r.storage_size b := by
        rw [show (registry.get_storage r0 c).2 = r0.touch c from rfl, touch_storage_size]
        exact hag b
      have hstep : registry.view_step (b, r0) c =
          (if r.storage_size c < r.storage_size b then c else b, r0.touch c) := by
        unfold registry.view_step
        dsimp only
        rw [h1, h2]
        by_cases hP : r.storage_size c < r.storage_size b
        · rw [if_pos hP, if_pos hP]
          rfl
        · rw [if_neg hP, if_neg hP]
          rfl
      rw [hstep]
      have hag2 : ∀ c2, (r0.touch c).storage_size c2 = r.storage_size c2 := fun c2 => by
        rw [touch_storage_size]
        exact hag c2
      by_cases hP : r.storage_size c < r.storage_size b
      · rw [if_pos hP]
        exact ih _ _ hag2
      · rw [if_neg hP]
        exact ih _ _ hag2
  exact aux _ _ _ fun c => by
    rw [show (registry.get_storage r first).2 = r.touch first from rfl, touch_storage_size]

/-! ### properties of the driver-selection fold -/

theorem select_smallest_cons (sz : Nat → Nat) (b c : Nat) (t : List Nat) :
    select_smallest sz b (c :: t) = select_smallest sz (if sz c < sz b then c else b) t := rfl

theorem select_smallest_mem (sz : Nat → Nat) (b : Nat) (l : List Nat) :
    select_smallest sz b l ∈ b :: l := by
  induction l generalizing b with
  | nil => exact List.mem_cons_self _ _
  | cons c t ih =>
    rw [select_smallest_cons]
    have h := ih (if sz c < sz b then c else b)
    rcases List.mem_cons.mp h with h1 | h2
    · rw [h1]
      by_cases hP : sz c < sz b
      · rw [if_pos hP]
        exact List.mem_cons_of_mem _ (List.mem_cons_self _ _)
      · rw [if_neg hP]
        exact List.mem_cons_self _ _
    · exact List.mem_cons_of_mem _ (List.mem_cons_of_mem _ h2)

theorem select_smallest_min (sz : Nat → Nat) (b : Nat) (l : List Nat) :
    ∀ c ∈ b :: l, sz (select_smallest sz b l) ≤ sz c := by
  induction l generalizing b with
  | nil =>
    intro c hc
    rcases List.mem_cons.mp hc with h1 | h2
    · rw [h1]
      exact Nat.le_refl _
    · cases h2
  | cons d t ih =>
    intro x hx
    rw [select_smallest_cons]
    have hb1 : sz (select_smallest sz (if sz d < sz b then d else b) t) ≤
        sz (if sz d < sz b then d else b) :=
      ih (if sz d < sz b then d else b) _ (List.mem_cons_self _ _)
    have hb2 : sz (if sz d < sz b then d else b) ≤ sz b := by
      by_cases hP : sz d < sz b
      · rw [if_pos hP]
        omega
      · rw [if_neg hP]
    have hb3 : sz (if sz d < sz b then d else b) ≤ sz d := by
      by_cases hP : sz d < sz b
      · rw [if_pos hP]
      · rw [if_neg hP]
        omega
    rcases List.mem_cons.mp hx with h1 | hx2
    · rw [h1]
      exact Nat.le_trans hb1 hb2
    · rcases List.mem_cons.mp hx2 with h2 | h3
      · rw [h2]
        exact Nat.le_trans hb1 hb3
      · exact ih _ x (List.mem_cons_of_mem _ h3)

theorem select_smallest_first (sz : Nat → Nat) (b : Nat) (l : List Nat) :
    ∃ l1 l2, b :: l = l1 ++ select_smallest sz b l :: l2 ∧
      ∀ c ∈ l1, sz (select_smallest sz b l) < sz c := by
  induction l generalizing b with
  | nil => exact ⟨[], [], rfl, by simp⟩
  | cons d t ih =>
    rw [select_smallest_cons]
    by_cases hP : sz d < sz b
    · rw [if_pos hP]
      obtain ⟨l1, l2, heq, hlt⟩ := ih d
      cases l1 with
      | nil =>
        simp only [List.nil_append] at heq
        injection heq with h1 h2
        refine ⟨[b], l2, ?_, ?_⟩
        · rw [← h1, ← h2]
          rfl
        · intro c hc
          rcases List.mem_cons.mp hc with hcb | hc0
          · rw [hcb, ← h1]
            exact hP
          · cases hc0
      | cons hd l1' =>
        simp only [List.cons_append] at heq
        injection heq with h1 h2
        refine ⟨b :: d :: l1', l2, ?_, ?_⟩
        · show b :: d :: t = b :: d :: (l1' ++ select_smallest sz d t :: l2)
          rw [← h2]
        · intro c hc
          have hseld : sz (select_smallest sz d t) < sz d :=
            hlt hd (List.mem_cons_self _ _) |>.trans_le (by rw [h1])
          rcases List.mem_cons.mp hc with hcb | hc2
          · rw [hcb]
            exact Nat.lt_trans hseld hP
          · rcases List.mem_cons.mp hc2 with hcd | hc3
            · rw [hcd]
              exact hseld
            · exact hlt c (List.mem_cons_of_mem _ hc3)
    · rw [if_neg hP]
      obtain ⟨l1, l2, heq, hlt⟩ := ih b
      cases l1 with
      | nil =>
        simp only [List.nil_append] at heq
        injection heq with h1 h2
        refine ⟨[], d :: t, ?_, ?_⟩
        · show b :: d :: t = select_smallest sz b t :: d :: t
          rw [← h1]
        · intro c hc
          cases hc
      | cons hd l1' =>
        simp only [List.cons_append] at heq
        injection heq with h1 h2
        have hselb : sz (select_smallest sz b t) < sz b := by
          have := hlt hd (List.mem_cons_self _ _)
          rw [← h1] at this
          exact this
        refine ⟨b :: d :: l1', l2, ?_, ?_⟩
        · show b :: d :: t = b :: d :: (l1' ++ select_smallest sz b t :: l2)
          rw [← h2]
        · intro c hc
          rcases List.mem_cons.mp hc with hcb | hc2
          · rw [hcb]
            exact hselb
          · rcases List.mem_cons.mp hc2 with hcd | hc3
            · rw [hcd]
              exact Nat.lt_of_lt_of_le hselb (Nat.le_of_not_lt hP)
            · exact hlt c (List.mem_cons_of_mem _ hc3)

/-! ### view iteration lemmas -/

theorem has_all_component {V : Type} {r : registry V} {cids : List Nat} {e c : Nat}
    (hall : r.has_all cids e = true) (hc : c ∈ cids) : r.has_component c e = true := by
  unfold registry.has_all at hall
  rw [List.all_eq_true] at hall
  exact hall c hc

theorem mem_view_visits {V : Type} {r : registry V} {d : Nat} {cids : List Nat} {e : Nat}
    (hd : d ∈ cids) :
    e ∈ r.view_visits d cids ↔ r.has_all cids e = true := by
  unfold registry.view_visits
  constructor
  · intro hmem
    rcases List.mem_map.mp hmem with ⟨p, hp, hpe⟩
    rcases List.mem_filter.mp hp with ⟨hp1, hp2⟩
    rw [← hpe]
    exact hp2
  · intro hall
    have hc : r.has_component d e = true := has_all_component hall hd
    unfold registry.has_component at hc
    cases hl : lookup_storage r.component_storages d with
    | none =>
      rw [hl] at hc
      exact Bool.noConfusion hc
    | some sd =>
      rw [hl] at hc
      obtain ⟨hlen, dd, p, hspe, hdn, hnth, hfst⟩ := sparse_set.has_iff.mp hc
      apply List.mem_map.mpr
      refine ⟨p, List.mem_filter.mpr ⟨?_, ?_⟩, hfst⟩
      · unfold registry.driver_storage
        rw [hl]
        exact mem_of_nth? (by rw [nth?_take hdn]; exact hnth)
      · show r.has_all cids p.1 = true
        rw [hfst]
        exact hall

theorem view_visits_nodup {V : Type} {r : registry V} (d : Nat) (cids : List Nat)
    (hw : r.wf_all = true) : (r.view_visits d cids).Nodup := by
  unfold registry.view_visits
  have hwd : (registry.driver_storage r d).wf = true := by
    unfold registry.driver_storage
    cases hl : lookup_storage r.component_storages d with
    | none => exact sparse_set.empty_wf
    | some sd => exact wf_all_lookup hw hl
  have hnd := sparse_set.wf_nodup hwd
  unfold sparse_set.dense_indices at hnd
  exact List.Nodup.sublist (List.Sublist.map Prod.fst (List.filter_sublist _)) hnd

/-! ### entity lifecycle lemmas -/

theorem new_entity_storages {V : Type} (r : registry V) :
    (r.new_entity).2.component_storages = r.component_storages := by
  unfold registry.new_entity
  cases hf : r.free_entities <;> rfl

theorem has_component_ext {V : Type} {r1 r2 : registry V}
    (h : r1.component_storages = r2.component_storages) (cid e : Nat) :
    r1.has_component cid e = r2.has_component cid e := by
  unfold registry.has_component
  rw [h]

/-! ### Claim C3 -/

theorem sparse_set.emplace_fresh {T : Type} {s s1 : sparse_set T} {e : Nat} (v : T)
    (hg : s.grow_sparse_to e = Except.ok s1) (hh : s1.has e = false) :
    s.emplace e v = Except.ok { s1 with
      dense := if s1.dense.length = s1.n then s1.dense ++ [(e, v)] else s1.dense.set s1.n (e, v),
      sparse := s1.sparse.set e (some s1.n),
      n := s1.n + 1 } := by
  unfold sparse_set.emplace
  simp only [hg]
  rw [if_neg (by simp [hh])]

theorem sparse_set.has_false_of_sp_none {T : Type} {s : sparse_set T} {e : Nat}
    (h : sp_get s.sparse e = none) : s.has e = false := by
  unfold sparse_set.has
  rw [h]
  exact Bool.and_false _

theorem sparse_set.grow_exact {T : Type} {s : sparse_set T} {e : Nat}
    (h1 : s.sparse.length ≤ e)
    (h2 : ¬ max_capacity < max (s.sparse.length * 2) (e + 1)) :
    s.grow_sparse_to e =
      Except.ok (⟨s.sparse ++ List.replicate (max (s.sparse.length * 2) (e + 1) -
        s.sparse.length) none, s.dense, s.n⟩ : sparse_set T) := by
  unfold sparse_set.grow_sparse_to
  rw [if_pos h1, if_neg h2]

theorem empty_sparse_length :
    (sparse_set.empty : sparse_set Nat).sparse.length = 1024 :=
  List.length_replicate 1024 none

theorem empty_grow_600000 :
    (sparse_set.empty : sparse_set Nat).grow_sparse_to 600000 =
      Except.ok (⟨List.replicate 1024 none ++ List.replicate 598977 none, [], 0⟩ :
        sparse_set Nat) := by
  have h1 : (sparse_set.empty : sparse_set Nat).sparse.length ≤ 600000 := by
    rw [empty_sparse_length]
    norm_num
  have h2 : ¬ max_capacity <
      max ((sparse_set.empty : sparse_set Nat).sparse.length * 2) (600000 + 1) := by
    rw [empty_sparse_length]
    norm_num [max_capacity, Nat.max_def]
  have hK : max ((sparse_set.empty : sparse_set Nat).sparse.length * 2) (600000 + 1) -
      (sparse_set.empty : sparse_set Nat).sparse.length = 598977 := by
    rw [empty_sparse_length]
    norm_num [Nat.max_def]
  refine (sparse_set.grow_exact h1 h2).trans ?_
  rw [hK]
  rfl

theorem grown_has_600000_false :
    (⟨List.replicate 1024 none ++ List.replicate 598977 none, [], 0⟩ :
      sparse_set Nat).has 600000 = false :=
  sparse_set.has_false_of_sp_none
    ((sp_get_append_replicate_none (List.replicate 1024 none) 598977 600000).trans
      (sp_get_replicate_none 1024 600000))

theorem empty_emplace_600000 :
    (sparse_set.empty : sparse_set Nat).emplace 600000 0 = Except.ok s600 :=
  (sparse_set.emplace_fresh 0 empty_grow_600000 grown_has_600000_false).trans rfl

theorem s600_emplace_700000 :
    s600.emplace 700000 0 = Except.error EcsError.capacityExceeded := by
  have hlen : s600.sparse.length = 600001 := by
    unfold s600
    rw [List.length_set, List.length_append, List.length_replicate, List.length_replicate]
  apply sparse_set.emplace_error_of
  · rw [hlen]
    omega
  · rw [hlen]
    norm_num [max_capacity, Nat.max_def]

/-- C3 counterexample: the sparse set reached by emplacing index 600000 into a
fresh set has sparse capacity 600001; emplacing index 700000 — an index that
fits within `max_capacity` — then fails, because the doubling term of
`grow_sparse_to` (2·600001) exceeds the maximum.  So "for every index that
fits within the configured maximum, the operation succeeds" is false. -/
theorem emplace_error_within_configured_max :
    (sparse_set.empty : sparse_set Nat).emplace 600000 0 = Except.ok s600 ∧
    700000 + 1 ≤ max_capacity ∧
    s600.emplace 700000 0 = Except.error EcsError.capacityExceeded :=
  ⟨empty_emplace_600000, by norm_num [max_capacity], s600_emplace_700000⟩

/-- C3 (amended): `emplace(e, v)` signals a capacity error exactly when `e` is
beyond the current sparse capacity and the grown size `max(2·capacity, e+1)`
would exceed `max_capacity`; because of the doubling term this can happen even
for an index that fits within the configured maximum. -/
theorem emplace_capacity_error_iff (T : Type) (s : sparse_set T) (e : Nat) (v : T) :
    s.emplace e v = Except.error EcsError.capacityExceeded ↔
      (s.sparse.length ≤ e ∧ max_capacity < max (s.sparse.length * 2) (e + 1)) := by
  constructor
  · intro h
    by_contra hc
    obtain ⟨s2, h2⟩ := sparse_set.emplace_ok_of v hc
    rw [h] at h2
    exact Except.noConfusion h2
  · intro hc
    exact sparse_set.emplace_error_of v hc.1 hc.2

theorem emplace_capacity_error_iff_witness :
    (sparse_set.empty : sparse_set Nat).emplace 1000000 0 =
      Except.error EcsError.capacityExceeded :=
  (emplace_capacity_error_iff Nat sparse_set.empty 1000000 0).mpr
    (by constructor <;> decide)

/-! ### Claim C1 -/

/-- C1: for every registry state (with well-formed storages, the reachable
states) and every pair of component types `a`, `b`, `view` visits exactly the
entities present in both storages, each exactly once (the visit list has no
duplicates), and membership in the visit sequence is the same whichever of the
two storages is used as the driver. -/
theorem view_visits_exactly_intersection (V : Type) (r : registry V) (a b : Nat)
    (hw : r.wf_all = true) :
    (∀ e, e ∈ (r.view a [b]).1 ↔
        (r.has_component a e = true ∧ r.has_component b e = true)) ∧
    (r.view a [b]).1.Nodup ∧
    (∀ e, e ∈ registry.view_visits (r.view a [b]).2 a [a, b] ↔
          e ∈ registry.view_visits (r.view a [b]).2 b [a, b]) := by
  simp only [registry.view]
  have hsnd := view_select_snd r a [b]
  have hpres : ∀ c e, ((r.view_select a [b]).2).has_component c e = r.has_component c e := by
    intro c e
    rw [hsnd, foldl_touch_has_component, touch_has_component]
  have hwf2 : ((r.view_select a [b]).2).wf_all = true := by
    rw [hsnd]
    exact foldl_touch_wf_all _ (touch_wf_all _ hw)
  have hdrv : (r.view_select a [b]).1 ∈ [a, b] := by
    rw [view_select_fst]
    have h := select_smallest_mem r.storage_size a [a, b]
    rcases List.mem_cons.mp h with h1 | h2
    · rw [h1]
      exact List.mem_cons_self _ _
    · exact h2
  have hall : ∀ e, ((r.view_select a [b]).2).has_all [a, b] e = true ↔
      (r.has_component a e = true ∧ r.has_component b e = true) := by
    intro e
    unfold registry.has_all
    simp only [List.all_cons, List.all_nil, Bool.and_true, Bool.and_eq_true, hpres]
  refine ⟨?_, ?_, ?_⟩
  · intro e
    rw [mem_view_visits hdrv]
    exact hall e
  · exact view_visits_nodup _ _ hwf2
  · intro e
    rw [mem_view_visits (show a ∈ [a, b] from List.mem_cons_self _ _),
      mem_view_visits (show b ∈ [a, b] from List.mem_cons_of_mem _ (List.mem_cons_self _ _))]

theorem view_visits_exactly_intersection_witness :
    demo_registry.wf_all = true ∧
    (2 ∈ (demo_registry.view 1 [2]).1 ↔
      (demo_registry.has_component 1 2 = true ∧ demo_registry.has_component 2 2 = true)) :=
  ⟨by decide, (view_visits_exactly_intersection Nat demo_registry 1 2 (by decide)).1 2⟩

/-! ### Claim C2 -/

/-- C2: the driver `view` selects is one of the requested component ids, its
storage's live-entry count is minimal among all requested storages, and it sits
at the first minimal position of the query's type list: everything strictly
before it in the list is strictly larger (so ties go to the type named
earliest). -/
theorem view_driver_minimal_earliest (V : Type) (r : registry V) (first : Nat)
    (rest : List Nat) :
    (r.view_select first rest).1 ∈ first :: rest ∧
    (∀ c ∈ first :: rest,
      r.storage_size (r.view_select first rest).1 ≤ r.storage_size c) ∧
    ∃ l1 l2, first :: rest = l1 ++ (r.view_select first rest).1 :: l2 ∧
      ∀ c ∈ l1, r.storage_size (r.view_select first rest).1 < r.storage_size c := by
  rw [view_select_fst]
  refine ⟨?_, ?_, ?_⟩
  · have h := select_smallest_mem r.storage_size first (first :: rest)
    rcases List.mem_cons.mp h with h1 | h2
    · rw [h1]
      exact List.mem_cons_self _ _
    · exact h2
  · intro c hc
    exact select_smallest_min r.storage_size first (first :: rest) c
      (List.mem_cons_of_mem _ hc)
  · obtain ⟨l1, l2, heq, hlt⟩ := select_smallest_first r.storage_size first (first :: rest)
    cases l1 with
    | nil =>
      simp only [List.nil_append] at heq
      injection heq with h1 h2
      refine ⟨[], rest, ?_, fun c hc => absurd hc (List.not_mem_nil c)⟩
      show first :: rest =
        select_smallest r.storage_size first (first :: rest) :: rest
      rw [← h1]
    | cons hd l1' =>
      simp only [List.cons_append] at heq
      injection heq with h1 h2
      exact ⟨l1', l2, h2, fun c hc => hlt c (List.mem_cons_of_mem _ hc)⟩

theorem view_driver_minimal_earliest_witness :
    (demo_registry.view_select 1 [2]).1 ∈ [1, 2] ∧
    registry.storage_size demo_registry (demo_registry.view_select 1 [2]).1 ≤
      registry.storage_size demo_registry 2 :=
  ⟨(view_driver_minimal_earliest Nat demo_registry 1 [2]).1,
   (view_driver_minimal_earliest Nat demo_registry 1 [2]).2.1 2
     (List.mem_cons_of_mem _ (List.mem_cons_self _ _))⟩

/-! ### Claim C4 -/

/-- C4 counterexample: on a registry with no storages, a capacity-failing
`add_component` still registers an empty storage for the requested type
(`get_storage` runs before `emplace` throws), so the registry afterwards is
not equal to the registry before. -/
theorem add_component_failure_changes_registry :
    ((fresh_registry.add_component 0 1000000 0).2 = some EcsError.capacityExceeded) ∧
    (fresh_registry.add_component 0 1000000 0).1 ≠ fresh_registry := by
  constructor
  · decide
  · decide

/-- C4 (amended): a failed `add_component` leaves the entity counter, the free
list, every storage's contents, and every `has_component` observation exactly
as they were; the only possible difference is that an empty storage for the
requested type is newly registered when that type had never been touched
(the slot under `cid` afterwards holds the old storage if there was one, else
a fresh empty one). -/
theorem add_component_failure_preserves_contents (V : Type) (r : registry V)
    (cid e : Nat) (v : V) (err : EcsError)
    (h : (r.add_component cid e v).2 = some err) :
    (r.add_component cid e v).1.next_entity = r.next_entity ∧
    (r.add_component cid e v).1.free_entities = r.free_entities ∧
    (∀ c, c ≠ cid →
      lookup_storage (r.add_component cid e v).1.component_storages c =
        lookup_storage r.component_storages c) ∧
    lookup_storage (r.add_component cid e v).1.component_storages cid =
      some ((lookup_storage r.component_storages cid).getD sparse_set.empty) ∧
    (∀ c e2, (r.add_component cid e v).1.has_component c e2 = r.has_component c e2) := by
  have hr : (r.add_component cid e v).1 = r.touch cid := by
    unfold registry.add_component
    cases hemp : (r.get_storage cid).1.emplace e v with
    | ok s2 =>
      exfalso
      unfold registry.add_component at h
      simp only [hemp] at h
      exact Option.noConfusion h
    | error err2 => rfl
  rw [hr]
  refine ⟨(touch_next_free r cid).1, (touch_next_free r cid).2, ?_, ?_,
    fun c e2 => touch_has_component r cid c e2⟩
  · intro c hc
    rw [touch_lookup]
    cases h2 : lookup_storage r.component_storages c with
    | some t => rfl
    | none => rw [if_neg (fun he => hc he.symm)]
  · rw [touch_lookup]
    cases h2 : lookup_storage r.component_storages cid with
    | some t => rfl
    | none =>
      rw [if_pos rfl]
      rfl

theorem add_component_failure_preserves_contents_witness :
    ((fresh_registry.add_component 5 1000000 0).2 = some EcsError.capacityExceeded) ∧
    (fresh_registry.add_component 5 1000000 0).1.free_entities = [] :=
  ⟨by decide,
   (add_component_failure_preserves_contents Nat fresh_registry 5 1000000 0
      EcsError.capacityExceeded (by decide)).2.1.trans rfl⟩

/-! ### Claim C5 -/

/-- C5: `remove_entity` pushes onto the free list unconditionally — there is no
guard — so removing the same id twice leaves it on the free list twice,
contradicting the claim that the free list never holds an id twice. -/
theorem remove_entity_double_push :
    ((fresh_registry.remove_entity 1).remove_entity 1).free_entities = [1, 1] := by
  decide

/-! ### Claim C6 -/

/-- C6: from the reachable state obtained by `remove_entity 1` on a fresh
registry (removing a never-live id is accepted silently), two consecutive
`new_entity()` calls with no interleaved removal both return 1: the first pops
1 from the free list, the second mints `++next_entity` which is also 1.  The
returned ids are not pairwise distinct. -/
theorem new_entity_returns_duplicate :
    (((fresh_registry.remove_entity 1).new_entity).1 = 1) ∧
    (((((fresh_registry.remove_entity 1).new_entity).2).new_entity).1 = 1) := by
  constructor
  · decide
  · decide

/-! ### Claim C7 -/

/-- C7: after `remove_entity e` every component type reports
`has_component = false` for `e` (components are cleared at removal time), and
this still holds after a following `new_entity()` — which may recycle the same
numeric id — since re-allocation does not touch the storages. -/
theorem remove_entity_clears_components (V : Type) (r : registry V) (cid e : Nat)
    (hw : r.wf_all = true) :
    (r.remove_entity e).has_component cid e = false ∧
    ((r.remove_entity e).new_entity).2.has_component cid e = false := by
  have h1 : (r.remove_entity e).has_component cid e = false := by
    unfold registry.has_component registry.remove_entity
    dsimp only
    rw [lookup_map_erase]
    cases h : lookup_storage r.component_storages cid with
    | none => rfl
    | some s => exact sparse_set.erase_has_self (wf_all_lookup hw h)
  refine ⟨h1, ?_⟩
  rw [has_component_ext (new_entity_storages (r.remove_entity e)) cid e]
  exact h1

theorem remove_entity_clears_components_witness :
    demo_registry.wf_all = true ∧
    (demo_registry.remove_entity 2).has_component 1 2 = false :=
  ⟨by decide, (remove_entity_clears_components Nat demo_registry 1 2 (by decide)).1⟩

/-! ### Claim C8 -/

/-- C8: whenever `add_component cid e v` succeeds (both when `e` had no
component of that type and when it overwrote one), an immediately following
`get_component cid e` yields exactly `v`. -/
theorem add_then_get_roundtrip (V : Type) (r : registry V) (cid e : Nat) (v : V)
    (hw : r.wf_all = true) (hok : (r.add_component cid e v).2 = none) :
    (((r.add_component cid e v).1).get_component cid e).1 = some v := by
  unfold registry.add_component at hok ⊢
  cases hemp : (r.get_storage cid).1.emplace e v with
  | error err =>
    simp only [hemp] at hok
    exact Option.noConfusion hok
  | ok s2 =>
    simp only [hemp]
    unfold registry.get_component registry.get_storage
    dsimp only
    rw [lookup_set_storage_self]
    exact sparse_set.emplace_ok_get (sparse_set.wf_n_le (get_storage_fst_wf cid hw)) hemp

theorem add_then_get_roundtrip_witness :
    (fresh_registry.add_component 1 1 7).2 = none ∧
    ((fresh_registry.add_component 1 1 7).1.get_component 1 1).1 = some 7 :=
  ⟨by decide, add_then_get_roundtrip Nat fresh_registry 1 1 7 (by decide) (by decide)⟩

/-! ### Claim C9 -/

/-- C9: `erase` is a no-op on an absent entity, and erasing the same entity
twice leaves the storage (membership, live count, and all payloads — the whole
structure) identical to erasing it once. -/
theorem erase_noop_and_idempotent (T : Type) (s : sparse_set T) (e : Nat) :
    (s.has e = false → s.erase e = s) ∧ (s.erase e).erase e = s.erase e := by
  refine ⟨fun h => sparse_set.erase_not_has h, ?_⟩
  rcases sparse_set.erase_cases s e with h | h
  · rw [h]
    exact h
  · exact sparse_set.erase_not_has h

theorem erase_noop_and_idempotent_witness :
    (sparse_set.empty : sparse_set Nat).has 0 = false ∧
    (sparse_set.empty : sparse_set Nat).erase 0 = sparse_set.empty ∧
    ((sparse_set.empty : sparse_set Nat).erase 0).erase 0 =
      (sparse_set.empty : sparse_set Nat).erase 0 :=
  ⟨by decide, (erase_noop_and_idempotent Nat sparse_set.empty 0).1 (by decide),
   (erase_noop_and_idempotent Nat sparse_set.empty 0).2⟩

/-! ### Claim C10 -/

/-- C10: running `each` or `view` on a component type whose storage was never
touched registers a fresh empty storage for it in the registry's storage map —
an observable side effect of a read-only query (`has_component` and
`try_get_component`, embedded as pure functions of the registry, perform no
such registration). -/
theorem query_registers_missing_storages (V : Type) (r : registry V)
    (cid first : Nat) (rest : List Nat)
    (h : lookup_storage r.component_storages cid = none) (hmem : cid ∈ first :: rest) :
    lookup_storage ((r.each cid).2).component_storages cid = some sparse_set.empty ∧
    lookup_storage ((r.view first rest).2).component_storages cid = some sparse_set.empty := by
  constructor
  · show lookup_storage ((r.touch cid).component_storages) cid = some sparse_set.empty
    rw [touch_lookup, h, if_pos rfl]
  · rw [show (r.view first rest).2 = (r.view_select first rest).2 from rfl,
      view_select_snd, foldl_touch_lookup, touch_lookup, h]
    by_cases hf : first = cid
    · rw [if_pos hf]
    · rw [if_neg hf, if_pos hmem]

theorem query_registers_missing_storages_witness :
    lookup_storage fresh_registry.component_storages 5 = none ∧
    lookup_storage ((fresh_registry.view 5 []).2).component_storages 5 =
      some sparse_set.empty :=
  ⟨rfl, (query_registers_missing_storages Nat fresh_registry 5 5 [] rfl
      (List.mem_cons_self _ _)).2⟩
